import Mathlib

/-!
Shallow embedding of `src/main.py` of the `astrbot_plugin_hot_updata`
repository: a hot-update helper plugin.  The embedded core consists of the
dotted-integer version comparator `_compare_versions`, the per-plugin update
check `_check_plugin_update` (GitHub URL pattern matching, tag-prefix
stripping, candidate production), the `list` fan-out, and the index-based
`up` (apply) command handler.  Network and host effects are modelled by
explicit environment parameters (`fetch`, `Manager`).
-/

namespace HotUpdate

/-! ### Python `int()` on a version segment and `str.split` helpers -/

/-- Numeric value of a list of decimal digit characters, most significant
first (how Python accumulates digits of an integer literal). -/
def digitsToNat (cs : List Char) : Nat :=
  cs.foldl (fun n c => 10 * n + (c.toNat - 48)) 0

/-- Embedding of Python `int(s)` on a version-segment or index token: an
optional sign followed by one or more ASCII decimal digits parses to an
integer; anything else raises `ValueError`, embedded as `none`.  (CPython's
extra liberality — surrounding whitespace, digit-group underscores,
non-ASCII digits — is outside this model; tokens produced by `split` carry
no whitespace.) -/
def pyInt? (s : String) : Option Int :=
  let cs := s.toList
  let signDigits : Int × List Char :=
    match cs with
    | '-' :: rest => (-1, rest)
    | '+' :: rest => (1, rest)
    | _ => (1, cs)
  if signDigits.2 ≠ [] ∧ signDigits.2.all Char.isDigit then
    some (signDigits.1 * (digitsToNat signDigits.2 : Int))
  else
    none

/-- `str.split('.')` on the character list: cut at every '.', keeping empty
segments, exactly as Python does. -/
def splitDotAux : List Char → List Char → List String
  | [], acc => [String.mk acc.reverse]
  | c :: rest, acc =>
    if c = '.' then String.mk acc.reverse :: splitDotAux rest []
    else splitDotAux rest (c :: acc)

/-- `version.split('.')`. -/
def splitDot (s : String) : List String :=
  splitDotAux s.toList []

/-- `map(int, version.split('.'))` materialised by the `list(...)` call:
parse every dot-separated segment of a version string; `none` when any
segment fails (`ValueError`). -/
def parseVersion (s : String) : Option (List Int) :=
  let rec go : List String → Option (List Int)
    | [] => some []
    | t :: ts =>
      match pyInt? t, go ts with
      | some n, some ns => some (n :: ns)
      | _, _ => none
  go (splitDot s)

/-! ### `_compare_versions` (src/main.py lines 89-101) -/

/-- The body of the `for i in range(max(len, len))` loop of
`_compare_versions`: `fuel` counts the remaining iterations, `i` is the
current index; `parts[i] if i < len(parts) else 0` is `List.getD i 0`. -/
def compareVersionsGo (curr latest : List Int) (i fuel : Nat) : Int :=
  match fuel with
  | 0 => 0
  | Nat.succ fuel =>
    let curr_part := curr.getD i 0
    let latest_part := latest.getD i 0
    if curr_part < latest_part then -1
    else if latest_part < curr_part then 1
    else compareVersionsGo curr latest (i + 1) fuel

/-- `_compare_versions` on already-parsed segment lists: run the loop for
`max(len(curr_parts), len(latest_parts))` iterations starting at index 0,
returning 0 when the loop finishes without finding a difference. -/
def compareVersionsParts (curr latest : List Int) : Int :=
  compareVersionsGo curr latest 0 (max curr.length latest.length)

/-- `_compare_versions` at the string level, with the `ValueError` a
non-numeric segment raises embedded as `none`. -/
def compareVersionsStr (current_version latest_version : String) : Option Int :=
  match parseVersion current_version, parseVersion latest_version with
  | some curr_parts, some latest_parts =>
    some (compareVersionsParts curr_parts latest_parts)
  | _, _ => none

/-! ### Structural reformulation of the comparison loop -/

/-- Structural recursion equivalent to the indexed loop of
`_compare_versions`: a missing segment on either side counts as 0. -/
def cmpLists : List Int → List Int → Int
  | [], [] => 0
  | [], y :: ys => if 0 < y then -1 else if y < 0 then 1 else cmpLists [] ys
  | x :: xs, [] => if x < 0 then -1 else if 0 < x then 1 else cmpLists xs []
  | x :: xs, y :: ys => if x < y then -1 else if y < x then 1 else cmpLists xs ys

/-- First-difference comparison of two equally long segment lists, written
from the spec's words: "compare segment-by-segment left to right, first
difference decides ordering". -/
def firstDiff : List Int → List Int → Int
  | x :: xs, y :: ys => if x < y then -1 else if y < x then 1 else firstDiff xs ys
  | _, _ => 0

/-- Modelled from the spec's words: "pad the shorter sequence with zeros,
compare segment-by-segment left to right, first difference decides
ordering".  This is the specification-side comparator for the refinement
claim about `_compare_versions`. -/
def specCompare (xs ys : List Int) : Int :=
  let n := max xs.length ys.length
  let px := xs ++ List.replicate (n - xs.length) 0
  let py := ys ++ List.replicate (n - ys.length) 0
  firstDiff px py

theorem compareVersionsGo_shift (fuel : Nat) :
    ∀ (curr latest : List Int) (i : Nat),
      compareVersionsGo curr latest (i + 1) fuel =
        compareVersionsGo curr.tail latest.tail i fuel := by
  induction fuel with
  | zero => intro curr latest i; rfl
  | succ fuel ih =>
    intro curr latest i
    show (if curr.getD (i + 1) 0 < latest.getD (i + 1) 0 then (-1 : Int)
      else if latest.getD (i + 1) 0 < curr.getD (i + 1) 0 then 1
      else compareVersionsGo curr latest (i + 1 + 1) fuel) =
      (if curr.tail.getD i 0 < latest.tail.getD i 0 then (-1 : Int)
      else if latest.tail.getD i 0 < curr.tail.getD i 0 then 1
      else compareVersionsGo curr.tail latest.tail (i + 1) fuel)
    have h1 : curr.getD (i + 1) 0 = curr.tail.getD i 0 := by
      cases curr <;> simp
    have h2 : latest.getD (i + 1) 0 = latest.tail.getD i 0 := by
      cases latest <;> simp
    rw [h1, h2, ih curr latest (i + 1)]

theorem compareVersionsGo_nil_right :
    ∀ (xs : List Int), compareVersionsGo xs [] 0 xs.length = cmpLists xs [] := by
  intro xs
  induction xs with
  | nil => simp [compareVersionsGo, cmpLists]
  | cons x xs ih =>
    show (if (x :: xs).getD 0 0 < ([] : List Int).getD 0 0 then (-1 : Int)
      else if ([] : List Int).getD 0 0 < (x :: xs).getD 0 0 then 1
      else compareVersionsGo (x :: xs) [] 1 xs.length) = cmpLists (x :: xs) []
    rw [compareVersionsGo_shift xs.length (x :: xs) [] 0]
    simp only [List.getD_cons_zero, List.getD_nil, List.tail_cons, List.tail_nil, ih]
    simp [cmpLists]

theorem compareVersionsGo_nil_left :
    ∀ (ys : List Int), compareVersionsGo [] ys 0 ys.length = cmpLists [] ys := by
  intro ys
  induction ys with
  | nil => simp [compareVersionsGo, cmpLists]
  | cons y ys ih =>
    show (if ([] : List Int).getD 0 0 < (y :: ys).getD 0 0 then (-1 : Int)
      else if (y :: ys).getD 0 0 < ([] : List Int).getD 0 0 then 1
      else compareVersionsGo [] (y :: ys) 1 ys.length) = cmpLists [] (y :: ys)
    rw [compareVersionsGo_shift ys.length [] (y :: ys) 0]
    simp only [List.getD_cons_zero, List.getD_nil, List.tail_cons, List.tail_nil, ih]
    simp [cmpLists]

theorem compareVersionsParts_eq_cmpLists :
    ∀ (curr latest : List Int), compareVersionsParts curr latest = cmpLists curr latest := by
  intro curr
  induction curr with
  | nil =>
    intro latest
    show compareVersionsGo [] latest 0 (max 0 latest.length) = _
    rw [Nat.zero_max]
    exact compareVersionsGo_nil_left latest
  | cons x xs ih =>
    intro latest
    cases latest with
    | nil =>
      show compareVersionsGo (x :: xs) [] 0 (max (xs.length + 1) 0) = _
      rw [Nat.max_zero]
      exact compareVersionsGo_nil_right (x :: xs)
    | cons y ys =>
      show compareVersionsGo (x :: xs) (y :: ys) 0 (max (xs.length + 1) (ys.length + 1)) = _
      rw [Nat.succ_max_succ]
      show (if (x :: xs).getD 0 0 < (y :: ys).getD 0 0 then (-1 : Int)
        else if (y :: ys).getD 0 0 < (x :: xs).getD 0 0 then 1
        else compareVersionsGo (x :: xs) (y :: ys) 1 (max xs.length ys.length)) = _
      rw [compareVersionsGo_shift (max xs.length ys.length) (x :: xs) (y :: ys) 0]
      simp only [List.getD_cons_zero, List.tail_cons]
      have := ih ys
      simp only [compareVersionsParts] at this
      rw [this]
      simp [cmpLists]

/-! ### Order lemmas for the comparator -/

theorem cmpLists_refl : ∀ xs : List Int, cmpLists xs xs = 0 := by
  intro xs
  induction xs with
  | nil => simp [cmpLists]
  | cons x xs ih => simp [cmpLists, ih]

theorem cmpLists_swap : ∀ xs ys : List Int, cmpLists ys xs = -cmpLists xs ys := by
  intro xs
  induction xs with
  | nil =>
    intro ys
    induction ys with
    | nil => simp [cmpLists]
    | cons y ys ih =>
      simp only [cmpLists]
      rw [ih]
      split_ifs <;> first | rfl | omega
  | cons x xs ih =>
    intro ys
    cases ys with
    | nil =>
      simp only [cmpLists]
      rw [ih []]
      split_ifs <;> first | rfl | omega
    | cons y ys =>
      simp only [cmpLists]
      rw [ih ys]
      split_ifs <;> first | rfl | omega

theorem cmpLists_range : ∀ xs ys : List Int,
    cmpLists xs ys = -1 ∨ cmpLists xs ys = 0 ∨ cmpLists xs ys = 1 := by
  intro xs
  induction xs with
  | nil =>
    intro ys
    induction ys with
    | nil => simp [cmpLists]
    | cons y ys ih => simp only [cmpLists]; split_ifs <;> simp [ih]
  | cons x xs ih =>
    intro ys
    cases ys with
    | nil => simp only [cmpLists]; split_ifs <;> simp [ih []]
    | cons y ys => simp only [cmpLists]; split_ifs <;> simp [ih ys]

theorem cmpLists_nil_zeros : ∀ k : Nat, cmpLists [] (List.replicate k (0 : Int)) = 0 := by
  intro k
  induction k with
  | zero => simp [cmpLists]
  | succ k ih => simpa [List.replicate_succ, cmpLists] using ih

theorem cmpLists_zeros_right :
    ∀ (xs : List Int) (k : Nat), cmpLists xs (List.replicate k 0) = cmpLists xs [] := by
  intro xs
  induction xs with
  | nil => intro k; rw [cmpLists_nil_zeros]; simp [cmpLists]
  | cons x xs ih =>
    intro k
    cases k with
    | zero => rfl
    | succ k =>
      simp only [List.replicate_succ, cmpLists]
      rw [ih k]

theorem cmpLists_append_zeros_right :
    ∀ (ys xs : List Int) (k : Nat), cmpLists xs (ys ++ List.replicate k 0) = cmpLists xs ys := by
  intro ys
  induction ys with
  | nil => intro xs k; simpa using cmpLists_zeros_right xs k
  | cons y ys ih =>
    intro xs k
    cases xs with
    | nil =>
      simp only [List.cons_append, cmpLists]
      rw [ih [] k]
    | cons x xs =>
      simp only [List.cons_append, cmpLists]
      rw [ih xs k]

theorem cmpLists_append_zeros_left :
    ∀ (xs ys : List Int) (k : Nat), cmpLists (xs ++ List.replicate k 0) ys = cmpLists xs ys := by
  intro xs ys k
  have h1 := cmpLists_swap (xs ++ List.replicate k 0) ys
  have h2 := cmpLists_swap xs ys
  have h3 := cmpLists_append_zeros_right xs ys k
  omega

/-- Pad a segment list with zeros on the right up to length `n`. -/
def padTo (xs : List Int) (n : Nat) : List Int :=
  xs ++ List.replicate (n - xs.length) 0

theorem padTo_length (xs : List Int) (n : Nat) (h : xs.length ≤ n) :
    (padTo xs n).length = n := by
  simp [padTo]
  omega

theorem cmpLists_padTo (xs ys : List Int) (n : Nat) :
    cmpLists (padTo xs n) (padTo ys n) = cmpLists xs ys := by
  unfold padTo
  rw [cmpLists_append_zeros_left, cmpLists_append_zeros_right]

theorem cmpLists_eq_zero_iff :
    ∀ xs ys : List Int, xs.length = ys.length → (cmpLists xs ys = 0 ↔ xs = ys) := by
  intro xs
  induction xs with
  | nil =>
    intro ys h
    cases ys with
    | nil => simp [cmpLists]
    | cons y ys => simp at h
  | cons x xs ih =>
    intro ys h
    cases ys with
    | nil => simp at h
    | cons y ys =>
      simp only [List.length_cons] at h
      simp only [cmpLists]
      split_ifs with h1 h2
      · constructor
        · intro hc; exact absurd hc (by norm_num)
        · intro hc; simp only [List.cons.injEq] at hc; omega
      · constructor
        · intro hc; exact absurd hc (by norm_num)
        · intro hc; simp only [List.cons.injEq] at hc; omega
      · have hxy : x = y := by omega
        subst hxy
        rw [ih ys (by omega)]
        simp

theorem cmpLists_trans_neg :
    ∀ xs ys zs : List Int, xs.length = ys.length → ys.length = zs.length →
      cmpLists xs ys = -1 → cmpLists ys zs = -1 → cmpLists xs zs = -1 := by
  intro xs
  induction xs with
  | nil =>
    intro ys zs h1 h2 hxy hyz
    cases ys with
    | nil => simp [cmpLists] at hxy
    | cons y ys => simp at h1
  | cons x xs ih =>
    intro ys zs h1 h2 hxy hyz
    cases ys with
    | nil => simp at h1
    | cons y ys =>
      cases zs with
      | nil => simp at h2
      | cons z zs =>
        simp only [List.length_cons] at h1 h2
        simp only [cmpLists] at hxy hyz ⊢
        split_ifs at hxy hyz ⊢ <;>
          first
            | omega
            | exact ih ys zs (by omega) (by omega) hxy hyz

theorem cmpLists_trans_lt (xs ys zs : List Int) :
    cmpLists xs ys < 0 → cmpLists ys zs < 0 → cmpLists xs zs < 0 := by
  intro hxy hyz
  have hn : xs.length ≤ max xs.length (max ys.length zs.length) := le_max_left _ _
  have hny : ys.length ≤ max xs.length (max ys.length zs.length) :=
    le_trans (le_max_left _ _) (le_max_right _ _)
  have hnz : zs.length ≤ max xs.length (max ys.length zs.length) :=
    le_trans (le_max_right _ _) (le_max_right _ _)
  set n := max xs.length (max ys.length zs.length) with hdef
  rw [← cmpLists_padTo xs ys n] at hxy
  rw [← cmpLists_padTo ys zs n] at hyz
  rw [← cmpLists_padTo xs zs n]
  have e1 : cmpLists (padTo xs n) (padTo ys n) = -1 := by
    rcases cmpLists_range (padTo xs n) (padTo ys n) with h | h | h <;> omega
  have e2 : cmpLists (padTo ys n) (padTo zs n) = -1 := by
    rcases cmpLists_range (padTo ys n) (padTo zs n) with h | h | h <;> omega
  have := cmpLists_trans_neg (padTo xs n) (padTo ys n) (padTo zs n)
    (by rw [padTo_length xs n hn, padTo_length ys n hny])
    (by rw [padTo_length ys n hny, padTo_length zs n hnz]) e1 e2
  omega

theorem cmpLists_congr_left (xs ys zs : List Int) :
    cmpLists xs ys = 0 → cmpLists ys zs = cmpLists xs zs := by
  intro hxy
  have hn : xs.length ≤ max xs.length (max ys.length zs.length) := le_max_left _ _
  have hny : ys.length ≤ max xs.length (max ys.length zs.length) :=
    le_trans (le_max_left _ _) (le_max_right _ _)
  have hnz : zs.length ≤ max xs.length (max ys.length zs.length) :=
    le_trans (le_max_right _ _) (le_max_right _ _)
  set n := max xs.length (max ys.length zs.length) with hdef
  rw [← cmpLists_padTo xs ys n] at hxy
  have heq : padTo xs n = padTo ys n :=
    (cmpLists_eq_zero_iff (padTo xs n) (padTo ys n)
      (by rw [padTo_length xs n hn, padTo_length ys n hny])).mp hxy
  rw [← cmpLists_padTo ys zs n, ← cmpLists_padTo xs zs n, heq]

/-! ### The spec-side comparator agrees with the loop -/

theorem firstDiff_eq_cmpLists :
    ∀ xs ys : List Int, xs.length = ys.length → firstDiff xs ys = cmpLists xs ys := by
  intro xs
  induction xs with
  | nil =>
    intro ys h
    cases ys with
    | nil => simp [firstDiff, cmpLists]
    | cons y ys => simp at h
  | cons x xs ih =>
    intro ys h
    cases ys with
    | nil => simp at h
    | cons y ys =>
      simp only [List.length_cons] at h
      simp only [firstDiff, cmpLists]
      rw [ih ys (by omega)]

theorem compareVersionsParts_eq_specCompare (xs ys : List Int) :
    compareVersionsParts xs ys = specCompare xs ys := by
  have hx : xs.length ≤ max xs.length ys.length := le_max_left _ _
  have hy : ys.length ≤ max xs.length ys.length := le_max_right _ _
  show _ = firstDiff (padTo xs (max xs.length ys.length)) (padTo ys (max xs.length ys.length))
  rw [firstDiff_eq_cmpLists _ _
    (by rw [padTo_length xs _ hx, padTo_length ys _ hy]),
    cmpLists_padTo, compareVersionsParts_eq_cmpLists]

/-! ### Plugin records and the network environment -/

/-- The host's record of an installed plugin (the fields of `star_metadata`
that `main.py` reads): name, current version, optional repository URL.
`repo_url = none` embeds Python `None`. -/
structure StarMetadata where
  name : String
  version : String
  repo_url : Option String
deriving DecidableEq

/-- Outcome of `GET …/releases/latest` for one owner/repo pair:
`error` embeds `aiohttp.ClientError`, a non-success status raised by
`raise_for_status`, or any other exception while fetching/decoding;
`ok tagName` embeds a decoded JSON body whose `tag_name` field is
`tagName` (`none` when the field is absent, so `data.get("tag_name", "")`
yields `""`). -/
inductive FetchResult where
  | error : FetchResult
  | ok : Option String → FetchResult
deriving DecidableEq

/-- `str.lstrip('vV')`: remove ALL leading characters belonging to the set
`{v, V}`. -/
def lstripVV (s : String) : String :=
  String.mk (s.toList.dropWhile (fun c => c == 'v' || c == 'V'))

/-- `repo[:-4]` applied when `repo.endswith(".git")`. -/
def stripDotGit (s : String) : String :=
  if s.endsWith ".git" then s.dropRight 4 else s

/-- Does `pat` occur at the very start of `cs`? (Literal-pattern matching
at one position.) -/
def matchesAt : List Char → List Char → Bool
  | [], _ => true
  | _ :: _, [] => false
  | p :: ps, c :: cs => p == c && matchesAt ps cs

/-- Python `needle in hay` for strings: `needle` occurs as a contiguous
substring of `hay`. -/
def isSubstring : List Char → List Char → Bool
  | needle, [] => needle.isEmpty
  | needle, c :: rest => matchesAt needle (c :: rest) || isSubstring needle rest

/-- Attempt the pattern `github\.com/([^/]+)/([^/]+)` at the head of `cs`:
the literal `github.com/`, then a nonempty run of non-`/` characters
(greedy, deterministic since `/` cannot occur inside `[^/]+`), a literal
`/`, and a second nonempty run of non-`/` characters.  Returns the two
capture groups. -/
def matchGithubAt (cs : List Char) : Option (List Char × List Char) :=
  if matchesAt "github.com/".toList cs then
    let rest := cs.drop ("github.com/".toList.length)
    let owner := rest.takeWhile (fun c => c != '/')
    if owner.isEmpty then none
    else
      match rest.drop owner.length with
      | '/' :: rest2 =>
        let repo := rest2.takeWhile (fun c => c != '/')
        if repo.isEmpty then none else some (owner, repo)
      | _ => none
  else none

/-- `re.search(r"github\.com/([^/]+)/([^/]+)", url)`: try the pattern at
each start position, leftmost first, and return the capture groups of the
first position at which it matches. -/
def reSearchGithub : List Char → Option (List Char × List Char)
  | [] => none
  | c :: rest =>
    match matchGithubAt (c :: rest) with
    | some r => some r
    | none => reSearchGithub rest

/-- `_check_plugin_update` (src/main.py lines 61-87), with the network
modelled by `fetch : owner → repo → FetchResult`.  Returns
`some (star_metadata, latest_version)` exactly when the original returns a
candidate pair, `none` on every logged-and-swallowed failure path.  The
`none` branch for a missing `repo_url` totalises the function on records
the caller's guard (`repo_url and "github.com" in repo_url`) excludes:
`list_updatable_plugins` never schedules a check for such a record. -/
def checkPluginUpdate (fetch : String → String → FetchResult)
    (st : StarMetadata) : Option (StarMetadata × String) :=
  match st.repo_url with
  | none => none
  | some url =>
    match reSearchGithub url.toList with
    | none => none
    | some (ownerCs, repoCs) =>
      let owner := String.mk ownerCs
      let repo := stripDotGit (String.mk repoCs)
      match fetch owner repo with
      | FetchResult.error => none
      | FetchResult.ok tagName =>
        let latest_version := lstripVV (tagName.getD "")
        if latest_version = "" then none
        else
          match compareVersionsStr st.version latest_version with
          | none => none
          | some c => if c < 0 then some (st, latest_version) else none

/-- The truthiness test guarding task creation in `list_updatable_plugins`:
`star_metadata.repo_url and "github.com" in star_metadata.repo_url`. -/
def starHasGithub (st : StarMetadata) : Bool :=
  match st.repo_url with
  | none => false
  | some url => isSubstring "github.com".toList url.toList

/-- The candidate list built by `list_updatable_plugins`
(src/main.py lines 22-59): fan out `_check_plugin_update` over every star
whose repository URL mentions `github.com`, gather in order, and keep the
truthy (non-`None`) results. -/
def listUpdatablePlugins (fetch : String → String → FetchResult)
    (all_stars : List StarMetadata) : List (StarMetadata × String) :=
  let tasks := all_stars.filter starHasGithub
  let results := tasks.map (checkPluginUpdate fetch)
  results.filterMap id

/-! ### The `up` (apply) command (src/main.py lines 103-153) -/

/-- Outcome of one `await plugin_manager.install_plugin(...)` call:
either normal return or an exception carrying a message. -/
inductive InstallOutcome where
  | success : InstallOutcome
  | failure : String → InstallOutcome
deriving DecidableEq

/-- The host capability surface the command probes:
`has_install` embeds `hasattr(plugin_manager, 'install_plugin')`;
`install` gives the outcome of `install_plugin(repo_url=…, proxy=None)`
keyed by the repository URL. -/
structure Manager where
  has_install : Bool
  install : String → InstallOutcome

/-- One entry of `results_messages`, tagged by which f-string produced it,
carrying exactly the data interpolated into that f-string. -/
inductive ItemMsg where
  | outOfRange : Int → Nat → ItemMsg
  | noRepoUrl : String → ItemMsg
  | attempting : String → String → ItemMsg
  | capabilityMissing : ItemMsg
  | installSuccess : String → String → ItemMsg
  | installFailed : String → String → ItemMsg
deriving DecidableEq

/-- `indices_str.split()`: split on runs of whitespace (`Char.isWhitespace`
standing for Python's whitespace set), discarding empty tokens. -/
def pySplitWs (s : String) : List String :=
  let rec go : List Char → List Char → List String
    | [], [] => []
    | [], acc => [String.mk acc.reverse]
    | c :: rest, acc =>
      if c.isWhitespace then
        match acc with
        | [] => go rest []
        | _ => String.mk acc.reverse :: go rest []
      else go rest (c :: acc)
  go s.toList []

/-- The token-parsing loop `[int(i.strip()) for i in indices_str.split()]`:
`none` embeds the `ValueError` raised by the first non-integer token. -/
def parseTokens : List String → Option (List Int)
  | [] => some []
  | t :: ts =>
    match pyInt? t, parseTokens ts with
    | some n, some ns => some (n :: ns)
    | _, _ => none

/-- The `try` block parsing `indices_str` in `update_plugin_command`:
tokenize, parse every token as an integer, and raise (`none`) when a token
is malformed or no token was provided. -/
def parseIndices (s : String) : Option (List Int) :=
  match parseTokens (pySplitWs s) with
  | none => none
  | some indices => if indices = [] then none else some indices

/-- The body of the per-index loop of `update_plugin_command` for one
index: the messages appended to `results_messages` for this index, paired
with the repository URLs passed to `install_plugin` while handling it. -/
def processIndex (mgr : Manager) (plugins : List (StarMetadata × String))
    (index : Int) : List ItemMsg × List String :=
  if ¬ (1 ≤ index ∧ index ≤ (plugins.length : Int)) then
    ([ItemMsg.outOfRange index plugins.length], [])
  else
    let entry := plugins.getD ((index - 1).toNat) (⟨"", "", none⟩, "")
    let st := entry.1
    let latest_version := entry.2
    match st.repo_url with
    | none => ([ItemMsg.noRepoUrl st.name], [])
    | some url =>
      if url = "" then ([ItemMsg.noRepoUrl st.name], [])
      else if ¬ mgr.has_install then
        ([ItemMsg.attempting st.name latest_version, ItemMsg.capabilityMissing], [])
      else
        match mgr.install url with
        | InstallOutcome.success =>
          ([ItemMsg.attempting st.name latest_version,
            ItemMsg.installSuccess st.name latest_version], [url])
        | InstallOutcome.failure msg =>
          ([ItemMsg.attempting st.name latest_version,
            ItemMsg.installFailed st.name msg], [url])

/-- The reply `update_plugin_command` yields:
`useListFirst` is the "没有可更新的插件列表，请先使用 /update list 命令。"
guard, `badFormat` the "无效的编号格式…" usage message, `report` the
joined `results_messages`. -/
inductive ApplyReply where
  | useListFirst : ApplyReply
  | badFormat : ApplyReply
  | report : List ItemMsg → ApplyReply
deriving DecidableEq

/-- Full observable outcome of one `update_plugin_command` invocation:
the reply, the sequence of delegated `install_plugin` calls (by repository
URL, in order), and the candidate list after the call (the handler never
reassigns `self.updatable_plugins`). -/
structure ApplyOutcome where
  reply : ApplyReply
  installs : List String
  plugins_after : List (StarMetadata × String)
deriving DecidableEq

/-- `update_plugin_command` (src/main.py lines 103-153) as a function of
the manager capability, the stored candidate list and the raw index
string. -/
def updatePluginCommand (mgr : Manager) (plugins : List (StarMetadata × String))
    (indices_str : String) : ApplyOutcome :=
  if plugins = [] then
    ⟨ApplyReply.useListFirst, [], plugins⟩
  else
    match parseIndices indices_str with
    | none => ⟨ApplyReply.badFormat, [], plugins⟩
    | some indices =>
      let per := indices.map (processIndex mgr plugins)
      ⟨ApplyReply.report (per.map Prod.fst).flatten, (per.map Prod.snd).flatten, plugins⟩

/-! ### Helper lemmas about the check and apply paths -/

theorem compareVersionsStr_self (v : String) :
    compareVersionsStr v v = none ∨ compareVersionsStr v v = some 0 := by
  unfold compareVersionsStr
  cases h : parseVersion v with
  | none => left; rfl
  | some xs =>
    right
    simp only [compareVersionsParts_eq_cmpLists, cmpLists_refl]

theorem checkPluginUpdate_some (fetch : String → String → FetchResult)
    (st : StarMetadata) (p : StarMetadata × String)
    (h : checkPluginUpdate fetch st = some p) :
    ∃ url ownerCs repoCs tagName c,
      st.repo_url = some url ∧
      reSearchGithub url.toList = some (ownerCs, repoCs) ∧
      fetch (String.mk ownerCs) (stripDotGit (String.mk repoCs)) = FetchResult.ok tagName ∧
      lstripVV (tagName.getD "") ≠ "" ∧
      compareVersionsStr st.version (lstripVV (tagName.getD "")) = some c ∧
      c < 0 ∧
      p = (st, lstripVV (tagName.getD "")) := by
  unfold checkPluginUpdate at h
  cases hru : st.repo_url with
  | none => simp only [hru] at h; exact Option.noConfusion h
  | some url =>
    simp only [hru] at h
    cases hre : reSearchGithub url.toList with
    | none => simp only [hre] at h; exact Option.noConfusion h
    | some pr =>
      obtain ⟨ownerCs, repoCs⟩ := pr
      simp only [hre] at h
      cases hf : fetch (String.mk ownerCs) (stripDotGit (String.mk repoCs)) with
      | error => simp only [hf] at h; exact Option.noConfusion h
      | ok tagName =>
        simp only [hf] at h
        by_cases hempty : lstripVV (tagName.getD "") = ""
        · rw [if_pos hempty] at h; exact absurd h (by simp)
        · rw [if_neg hempty] at h
          cases hc : compareVersionsStr st.version (lstripVV (tagName.getD "")) with
          | none => simp only [hc] at h; exact Option.noConfusion h
          | some c =>
            simp only [hc] at h
            by_cases hlt : c < 0
            · rw [if_pos hlt] at h
              refine ⟨url, ownerCs, repoCs, tagName, c, rfl, hre, hf, hempty, hc, hlt, ?_⟩
              exact (Option.some_injective _ h).symm
            · rw [if_neg hlt] at h; exact absurd h (by simp)

theorem listUpdatablePlugins_mem (fetch : String → String → FetchResult)
    (all_stars : List StarMetadata) (p : StarMetadata × String) :
    p ∈ listUpdatablePlugins fetch all_stars ↔
      ∃ st, st ∈ all_stars ∧ starHasGithub st = true ∧
        checkPluginUpdate fetch st = some p := by
  unfold listUpdatablePlugins
  simp only [List.filterMap_map, List.mem_filterMap, List.mem_filter]
  constructor
  · rintro ⟨st, ⟨hmem, hgh⟩, hck⟩
    exact ⟨st, hmem, hgh, hck⟩
  · rintro ⟨st, hmem, hgh, hck⟩
    exact ⟨st, ⟨hmem, hgh⟩, hck⟩

theorem parseTokens_none_of_mem :
    ∀ (ts : List String) (t : String), t ∈ ts → pyInt? t = none →
      parseTokens ts = none := by
  intro ts
  induction ts with
  | nil => intro t h; exact absurd h (by simp)
  | cons u ts ih =>
    intro t h hbad
    rcases List.mem_cons.mp h with heq | hmem
    · subst heq
      unfold parseTokens
      rw [hbad]
    · unfold parseTokens
      rw [ih t hmem hbad]
      cases pyInt? u <;> rfl

theorem processIndex_snd_no_install (mgr : Manager)
    (plugins : List (StarMetadata × String)) (i : Int)
    (hcap : mgr.has_install = false) :
    (processIndex mgr plugins i).2 = [] := by
  unfold processIndex
  by_cases h1 : 1 ≤ i ∧ i ≤ (plugins.length : Int)
  · rw [if_neg (not_not_intro h1)]
    generalize plugins.getD ((i - 1).toNat) (⟨"", "", none⟩, "") = entry
    obtain ⟨st, latest⟩ := entry
    cases hru : st.repo_url with
    | none => simp [hru]
    | some url =>
      by_cases hurl : url = ""
      · simp [hru, hurl]
      · simp only [hru]
        rw [if_neg hurl, if_pos (by simp [hcap])]
  · rw [if_pos h1]

theorem head_dropWhile_not (p : Char → Bool) :
    ∀ (l : List Char) (c : Char), (l.dropWhile p).head? = some c → p c = false := by
  intro l
  induction l with
  | nil => intro c h; simp at h
  | cons a l ih =>
    intro c h
    by_cases hp : p a
    · rw [List.dropWhile_cons_of_pos hp] at h
      exact ih c h
    · rw [List.dropWhile_cons_of_neg hp] at h
      simp only [List.head?_cons, Option.some_inj] at h
      subst h
      simpa using hp

/-! ### Claim theorems -/

theorem toList_mk (l : List Char) : (String.mk l).toList = l := rfl

/-- C1: for every pair of version strings whose dot-separated segments all
parse as integers, `_compare_versions` splits both strings on ".", parses
each segment as an integer, pads the shorter sequence with zeros and
compares segment-by-segment left to right with the first difference
deciding the ordering; in particular compare("1.2.0","1.2") = 0,
compare("1.2.3","1.3.0") < 0 and compare("2.0.0","1.9.9") > 0. -/
theorem c1_compare_versions_dotted_segment_semantics :
    (∀ (s t : String) (xs ys : List Int),
      parseVersion s = some xs → parseVersion t = some ys →
      compareVersionsStr s t = some (specCompare xs ys)) ∧
    compareVersionsStr "1.2.0" "1.2" = some 0 ∧
    (∃ c, compareVersionsStr "1.2.3" "1.3.0" = some c ∧ c < 0) ∧
    (∃ c, compareVersionsStr "2.0.0" "1.9.9" = some c ∧ 0 < c) := by
  refine ⟨?_, ?_, ⟨-1, ?_, by norm_num⟩, ⟨1, ?_, by norm_num⟩⟩
  · intro s t xs ys hs ht
    simp only [compareVersionsStr, hs, ht, compareVersionsParts_eq_specCompare]
  · rfl
  · rfl
  · rfl

/-- Witness for C1: instantiating the universally quantified refinement at
the strings "1.2.0" and "1.2", whose segments all parse. -/
theorem c1_witness :
    compareVersionsStr "1.2.0" "1.2" = some (specCompare [1, 2, 0] [1, 2]) :=
  c1_compare_versions_dotted_segment_semantics.1 "1.2.0" "1.2" [1, 2, 0] [1, 2] rfl rfl

/-- C3: on version strings with all-numeric dotted segments,
`_compare_versions` induces a total order: it is reflexive
(compare(x,x) = 0), antisymmetric up to segment-normalized equality
(compare(x,y) < 0 iff compare(y,x) > 0, and compare(x,y) = 0 makes x and y
interchangeable), transitive, and total (exactly one of < 0, = 0, > 0
holds). -/
theorem c3_compare_versions_total_order (x y z : String) (xs ys zs : List Int)
    (hx : parseVersion x = some xs) (hy : parseVersion y = some ys)
    (_hz : parseVersion z = some zs) :
    compareVersionsStr x x = some 0 ∧
    compareVersionsStr x y = some (compareVersionsParts xs ys) ∧
    (compareVersionsParts xs ys < 0 ↔ 0 < compareVersionsParts ys xs) ∧
    (compareVersionsParts xs ys < 0 → compareVersionsParts ys zs < 0 →
      compareVersionsParts xs zs < 0) ∧
    (compareVersionsParts xs ys = 0 →
      compareVersionsParts ys zs = compareVersionsParts xs zs) ∧
    ((compareVersionsParts xs ys < 0 ∧ compareVersionsParts xs ys ≠ 0 ∧
        ¬ 0 < compareVersionsParts xs ys) ∨
     (¬ compareVersionsParts xs ys < 0 ∧ compareVersionsParts xs ys = 0 ∧
        ¬ 0 < compareVersionsParts xs ys) ∨
     (¬ compareVersionsParts xs ys < 0 ∧ compareVersionsParts xs ys ≠ 0 ∧
        0 < compareVersionsParts xs ys)) := by
  refine ⟨?_, ?_, ?_, ?_, ?_, by omega⟩
  · simp only [compareVersionsStr, hx, compareVersionsParts_eq_cmpLists, cmpLists_refl]
  · simp only [compareVersionsStr, hx, hy]
  · simp only [compareVersionsParts_eq_cmpLists]
    have h := cmpLists_swap xs ys
    omega
  · simp only [compareVersionsParts_eq_cmpLists]
    exact cmpLists_trans_lt xs ys zs
  · simp only [compareVersionsParts_eq_cmpLists]
    exact cmpLists_congr_left xs ys zs

/-- Witness for C3: the order properties instantiated at the concrete
all-numeric version strings "1.2.0", "1.2" and "1.3.0". -/
theorem c3_witness : compareVersionsStr "1.2.0" "1.2.0" = some 0 :=
  (c3_compare_versions_total_order "1.2.0" "1.2" "1.3.0"
    [1, 2, 0] [1, 2] [1, 3, 0] rfl rfl rfl).1

/-- C7 counterexample: on the remote tag "vv1.2.3" the checker does NOT
remove exactly one leading version-prefix character (that would give
"v1.2.3"); `lstrip('vV')` removes every leading 'v'/'V' and yields
"1.2.3". -/
theorem c7_counterexample :
    lstripVV "vv1.2.3" = "1.2.3" ∧ lstripVV "vv1.2.3" ≠ "v1.2.3" := by
  exact ⟨rfl, by decide⟩

/-- C7 (amended): for every remote tag string the checker strips ALL leading
'v' and 'V' characters (zero or more, not exactly one) before comparison:
the tag splits into a dropped prefix consisting only of 'v'/'V' characters
followed by the preserved remainder, whose first character (if any) is not
'v' or 'V'. -/
theorem c7_strips_all_leading_v_prefix (tag : String) :
    ∃ pre, tag.toList = pre ++ (lstripVV tag).toList ∧
      (∀ c ∈ pre, c = 'v' ∨ c = 'V') ∧
      (∀ c, (lstripVV tag).toList.head? = some c → ¬(c = 'v' ∨ c = 'V')) := by
  refine ⟨tag.toList.takeWhile (fun c => c == 'v' || c == 'V'), ?_, ?_, ?_⟩
  · show tag.toList = _ ++ (String.mk (tag.toList.dropWhile (fun c => c == 'v' || c == 'V'))).toList
    rw [toList_mk]
    exact (List.takeWhile_append_dropWhile (p := fun c => c == 'v' || c == 'V') (l := tag.toList)).symm
  · intro c hc
    have h := List.mem_takeWhile_imp hc
    simp only [Bool.or_eq_true, beq_iff_eq] at h
    exact h
  · intro c hc
    have h := head_dropWhile_not (fun c => c == 'v' || c == 'V') tag.toList c
      (by rw [← toList_mk (tag.toList.dropWhile (fun c => c == 'v' || c == 'V'))]; exact hc)
    simp only [Bool.or_eq_false_iff, beq_eq_false_iff_ne] at h
    rintro (rfl | rfl)
    · exact h.1 rfl
    · exact h.2 rfl

/-- Witness for C7 (amended): the decomposition at the concrete tag
"vV1.0". -/
theorem c7_witness :
    ∃ pre, ("vV1.0" : String).toList = pre ++ (lstripVV "vV1.0").toList ∧
      (∀ c ∈ pre, c = 'v' ∨ c = 'V') ∧
      (∀ c, (lstripVV "vV1.0").toList.head? = some c → ¬(c = 'v' ∨ c = 'V')) :=
  c7_strips_all_leading_v_prefix "vV1.0"

/-- C10: an apply invocation made while the stored candidate list is empty
is rejected with the message directing the operator to run the list command
first, uniformly in the raw index string (hence before any index parsing),
with no delegated install and the candidate list unchanged. -/
theorem c10_empty_list_rejected (mgr : Manager) (s : String) :
    updatePluginCommand mgr [] s = ⟨ApplyReply.useListFirst, [], []⟩ := by
  unfold updatePluginCommand
  rw [if_pos rfl]

/-- A comparison whose left (current) version fails to parse raises
`ValueError`, i.e. yields `none`. -/
theorem compareVersionsStr_none_left (v w : String) (h : parseVersion v = none) :
    compareVersionsStr v w = none := by
  unfold compareVersionsStr
  cases hw : parseVersion w <;> simp only [h, hw]

/-- C2: every update candidate stored by the list operation comes from a
plugin record that is among the enumerated stars, whose repository URL
matched the GitHub owner/repo pattern, and whose discovered latest version
compares strictly greater than the record's current version; records with
a missing or non-matching repository URL, or whose latest tag (after
prefix stripping) equals the current version, never yield a candidate. -/
theorem c2_candidate_invariant :
    (∀ (fetch : String → String → FetchResult) (all_stars : List StarMetadata)
        (p : StarMetadata × String),
      p ∈ listUpdatablePlugins fetch all_stars →
        p.1 ∈ all_stars ∧
        (∃ url ownerCs repoCs, p.1.repo_url = some url ∧
          reSearchGithub url.toList = some (ownerCs, repoCs)) ∧
        (∃ c, compareVersionsStr p.1.version p.2 = some c ∧ c < 0)) ∧
    (∀ (fetch : String → String → FetchResult) (st : StarMetadata),
      st.repo_url = none → checkPluginUpdate fetch st = none) ∧
    (∀ (fetch : String → String → FetchResult) (st : StarMetadata) (url : String),
      st.repo_url = some url → reSearchGithub url.toList = none →
      checkPluginUpdate fetch st = none) ∧
    (∀ (fetch : String → String → FetchResult) (st : StarMetadata),
      (∀ o r tagName, fetch o r = FetchResult.ok tagName →
        lstripVV (tagName.getD "") = st.version) →
      checkPluginUpdate fetch st = none) := by
  refine ⟨?_, ?_, ?_, ?_⟩
  · intro fetch all_stars p hp
    rw [listUpdatablePlugins_mem] at hp
    obtain ⟨st, hmem, hgh, hck⟩ := hp
    obtain ⟨url, ownerCs, repoCs, tagName, c, hru, hre, hf, hne, hc, hlt, hpe⟩ :=
      checkPluginUpdate_some fetch st p hck
    subst hpe
    exact ⟨hmem, ⟨url, ownerCs, repoCs, hru, hre⟩, ⟨c, hc, hlt⟩⟩
  · intro fetch st h
    unfold checkPluginUpdate
    simp only [h]
  · intro fetch st url h hre
    unfold checkPluginUpdate
    simp only [h, hre]
  · intro fetch st h
    unfold checkPluginUpdate
    cases hru : st.repo_url with
    | none => simp only
    | some url =>
      simp only
      cases hre : reSearchGithub url.toList with
      | none => simp only
      | some pr =>
        obtain ⟨ownerCs, repoCs⟩ := pr
        simp only
        cases hf : fetch (String.mk ownerCs) (stripDotGit (String.mk repoCs)) with
        | error => simp only
        | ok tagName =>
          simp only
          rw [h (String.mk ownerCs) (stripDotGit (String.mk repoCs)) tagName hf]
          by_cases hv : st.version = ""
          · rw [if_pos hv]
          · rw [if_neg hv]
            rcases compareVersionsStr_self st.version with h0 | h0 <;> simp [h0]

/-- Witness for C2: a record with a missing repository URL yields no
candidate. -/
theorem c2_witness :
    checkPluginUpdate (fun _ _ => FetchResult.error) ⟨"A", "1.0", none⟩ = none :=
  c2_candidate_invariant.2.1 (fun _ _ => FetchResult.error) ⟨"A", "1.0", none⟩ rfl

/-- C6: if for the checked plugin the release response's `tag_name` field is
absent (`data.get` defaults to "") or empty after prefix stripping, the
check produces no candidate. -/
theorem c6_empty_tag_no_candidate (fetch : String → String → FetchResult)
    (st : StarMetadata)
    (h : ∀ o r, ∃ tagName, fetch o r = FetchResult.ok tagName ∧
      lstripVV (tagName.getD "") = "") :
    checkPluginUpdate fetch st = none := by
  unfold checkPluginUpdate
  cases hru : st.repo_url with
  | none => simp only
  | some url =>
    simp only
    cases hre : reSearchGithub url.toList with
    | none => simp only
    | some pr =>
      obtain ⟨ownerCs, repoCs⟩ := pr
      simp only
      obtain ⟨tagName, hf, hempty⟩ := h (String.mk ownerCs) (stripDotGit (String.mk repoCs))
      simp [hf, hempty]

/-- Witness for C6: a response whose JSON body lacks `tag_name` yields no
candidate even for a record with a well-formed GitHub URL. -/
theorem c6_witness :
    checkPluginUpdate (fun _ _ => FetchResult.ok none)
      ⟨"A", "1.0", some "https://github.com/a/b"⟩ = none :=
  c6_empty_tag_no_candidate (fun _ _ => FetchResult.ok none)
    ⟨"A", "1.0", some "https://github.com/a/b"⟩ (fun _ _ => ⟨none, rfl, rfl⟩)

/-- C8: a transport failure or a version-parse failure in one per-plugin
check yields no candidate for that plugin only; each candidate produced by
a successful check survives into the batch result independently of the
other checks; and in the concrete 5-plugin batch where the checks of B and
D fail with a transport error, A, C and E still yield their correct
candidates. -/
theorem c8_failure_containment :
    (∀ (fetch : String → String → FetchResult) (st : StarMetadata),
      (∀ o r, fetch o r = FetchResult.error) → checkPluginUpdate fetch st = none) ∧
    (∀ (fetch : String → String → FetchResult) (st : StarMetadata),
      parseVersion st.version = none → checkPluginUpdate fetch st = none) ∧
    (∀ (fetch : String → String → FetchResult) (all_stars : List StarMetadata)
        (st : StarMetadata) (p : StarMetadata × String),
      st ∈ all_stars → starHasGithub st = true → checkPluginUpdate fetch st = some p →
      p ∈ listUpdatablePlugins fetch all_stars) ∧
    listUpdatablePlugins
      (fun o _ => if o = "ob" ∨ o = "od" then FetchResult.error
        else FetchResult.ok (some "v2.0"))
      [⟨"A", "1.0", some "https://github.com/oa/ra"⟩,
       ⟨"B", "1.0", some "https://github.com/ob/rb"⟩,
       ⟨"C", "1.0", some "https://github.com/oc/rc"⟩,
       ⟨"D", "1.0", some "https://github.com/od/rd"⟩,
       ⟨"E", "1.0", some "https://github.com/oe/re"⟩] =
      [(⟨"A", "1.0", some "https://github.com/oa/ra"⟩, "2.0"),
       (⟨"C", "1.0", some "https://github.com/oc/rc"⟩, "2.0"),
       (⟨"E", "1.0", some "https://github.com/oe/re"⟩, "2.0")] := by
  refine ⟨?_, ?_, ?_, ?_⟩
  · intro fetch st h
    unfold checkPluginUpdate
    cases hru : st.repo_url with
    | none => simp only
    | some url =>
      simp only
      cases hre : reSearchGithub url.toList with
      | none => simp only
      | some pr =>
        obtain ⟨ownerCs, repoCs⟩ := pr
        simp [h (String.mk ownerCs) (stripDotGit (String.mk repoCs))]
  · intro fetch st h
    unfold checkPluginUpdate
    cases hru : st.repo_url with
    | none => simp only
    | some url =>
      simp only
      cases hre : reSearchGithub url.toList with
      | none => simp only
      | some pr =>
        obtain ⟨ownerCs, repoCs⟩ := pr
        simp only
        cases hf : fetch (String.mk ownerCs) (stripDotGit (String.mk repoCs)) with
        | error => simp only
        | ok tagName =>
          simp only
          rw [compareVersionsStr_none_left _ _ h]
          by_cases hv : lstripVV (tagName.getD "") = ""
          · rw [if_pos hv]
          · rw [if_neg hv]
  · intro fetch all_stars st p hmem hgh hck
    rw [listUpdatablePlugins_mem]
    exact ⟨st, hmem, hgh, hck⟩
  · rfl

/-- Witness for C8: a check against a fully failing transport yields no
candidate. -/
theorem c8_witness :
    checkPluginUpdate (fun _ _ => FetchResult.error)
      ⟨"A", "1.0", some "https://github.com/a/b"⟩ = none :=
  c8_failure_containment.1 (fun _ _ => FetchResult.error)
    ⟨"A", "1.0", some "https://github.com/a/b"⟩ (fun _ _ => rfl)

/-- With the install capability absent, no index ever reaches the delegated
install call. -/
theorem installs_flatten_nil (mgr : Manager) (plugins : List (StarMetadata × String))
    (hcap : mgr.has_install = false) :
    ∀ is : List Int,
      ((is.map (processIndex mgr plugins)).map Prod.snd).flatten = [] := by
  intro is
  induction is with
  | nil => rfl
  | cons i is ih =>
    simp only [List.map_cons, List.flatten_cons,
      processIndex_snd_no_install mgr plugins i hcap, List.nil_append, ih]

/-- C4: when the index string parses as a list of integers (and a candidate
list is stored), the command processes every index independently: the reply
is the concatenation of each index's own messages, and an out-of-range
index contributes exactly one per-item error message without aborting the
remaining indices. -/
theorem c4_partial_success_on_mixed_indices (mgr : Manager)
    (plugins : List (StarMetadata × String)) (s : String) (indices : List Int)
    (hne : plugins ≠ []) (hp : parseIndices s = some indices) :
    updatePluginCommand mgr plugins s =
      ⟨ApplyReply.report
        ((indices.map (fun i => (processIndex mgr plugins i).1)).flatten),
       (indices.map (fun i => (processIndex mgr plugins i).2)).flatten,
       plugins⟩ ∧
    (∀ i ∈ indices, ¬ (1 ≤ i ∧ i ≤ (plugins.length : Int)) →
      processIndex mgr plugins i = ([ItemMsg.outOfRange i plugins.length], [])) := by
  constructor
  · unfold updatePluginCommand
    rw [if_neg hne]
    simp only [hp, List.map_map]
    rfl
  · intro i hi hout
    unfold processIndex
    rw [if_pos hout]

/-- Witness for C4: the spec's concrete scenario — a two-element candidate
list and input "1 3" — yields an attempt plus success for index 1 and an
out-of-range error for index 3, in one combined report. -/
theorem c4_witness :
    updatePluginCommand ⟨true, fun _ => InstallOutcome.success⟩
      [(⟨"P1", "1.0.0", some "https://github.com/a/b"⟩, "1.1.0"),
       (⟨"P2", "1.0.0", some "https://github.com/c/d"⟩, "2.0.0")] "1 3" =
      ⟨ApplyReply.report
        [ItemMsg.attempting "P1" "1.1.0", ItemMsg.installSuccess "P1" "1.1.0",
         ItemMsg.outOfRange 3 2],
       ["https://github.com/a/b"],
       [(⟨"P1", "1.0.0", some "https://github.com/a/b"⟩, "1.1.0"),
        (⟨"P2", "1.0.0", some "https://github.com/c/d"⟩, "2.0.0")]⟩ := by
  have h := c4_partial_success_on_mixed_indices
    ⟨true, fun _ => InstallOutcome.success⟩
    [(⟨"P1", "1.0.0", some "https://github.com/a/b"⟩, "1.1.0"),
     (⟨"P2", "1.0.0", some "https://github.com/c/d"⟩, "2.0.0")] "1 3" [1, 3]
    (by simp) rfl
  rw [h.1]
  rfl

/-- C5: an apply invocation whose whitespace-separated index string contains
a token that does not parse as an integer is rejected whole with the usage
message, before any index is processed: no delegated install happens and
the candidate list is unchanged. -/
theorem c5_malformed_token_rejects_request (mgr : Manager)
    (plugins : List (StarMetadata × String)) (s t : String)
    (hne : plugins ≠ []) (ht : t ∈ pySplitWs s) (hbad : pyInt? t = none) :
    updatePluginCommand mgr plugins s = ⟨ApplyReply.badFormat, [], plugins⟩ := by
  have hnone : parseTokens (pySplitWs s) = none :=
    parseTokens_none_of_mem (pySplitWs s) t ht hbad
  have hpi : parseIndices s = none := by
    unfold parseIndices
    rw [hnone]
  unfold updatePluginCommand
  rw [if_neg hne]
  simp only [hpi]

/-- Witness for C5: input "abc" is rejected with the usage message. -/
theorem c5_witness :
    updatePluginCommand ⟨true, fun _ => InstallOutcome.success⟩
      [(⟨"P1", "1.0.0", some "https://github.com/a/b"⟩, "1.1.0")] "abc" =
      ⟨ApplyReply.badFormat, [],
       [(⟨"P1", "1.0.0", some "https://github.com/a/b"⟩, "1.1.0")]⟩ :=
  c5_malformed_token_rejects_request ⟨true, fun _ => InstallOutcome.success⟩
    [(⟨"P1", "1.0.0", some "https://github.com/a/b"⟩, "1.1.0")] "abc" "abc"
    (by simp) (by decide) rfl

/-- C9: when the host's install capability is absent, an apply invocation
never invokes a delegated install, every index still gets processed (the
reply is still the concatenation of all per-index messages), and each
in-range item with a usable repository URL is reported inline with the
capability-missing error. -/
theorem c9_capability_missing_inline (mgr : Manager)
    (plugins : List (StarMetadata × String)) (s : String) (indices : List Int)
    (hcap : mgr.has_install = false) (hne : plugins ≠ [])
    (hp : parseIndices s = some indices) :
    (updatePluginCommand mgr plugins s).installs = [] ∧
    (updatePluginCommand mgr plugins s).reply = ApplyReply.report
      ((indices.map (fun i => (processIndex mgr plugins i).1)).flatten) ∧
    (∀ i ∈ indices, (1 ≤ i ∧ i ≤ (plugins.length : Int)) →
      ∀ url, (plugins.getD ((i - 1).toNat) (⟨"", "", none⟩, "")).1.repo_url = some url →
        url ≠ "" →
        (processIndex mgr plugins i).1 =
          [ItemMsg.attempting (plugins.getD ((i - 1).toNat) (⟨"", "", none⟩, "")).1.name
            (plugins.getD ((i - 1).toNat) (⟨"", "", none⟩, "")).2,
           ItemMsg.capabilityMissing]) := by
  refine ⟨?_, ?_, ?_⟩
  · unfold updatePluginCommand
    rw [if_neg hne]
    simp only [hp]
    exact installs_flatten_nil mgr plugins hcap indices
  · unfold updatePluginCommand
    rw [if_neg hne]
    simp only [hp, List.map_map]
    rfl
  · intro i hi hrange url hurl hurlne
    unfold processIndex
    rw [if_neg (not_not_intro hrange)]
    generalize hentry : plugins.getD ((i - 1).toNat) (⟨"", "", none⟩, "") = entry at hurl ⊢
    obtain ⟨st, latest⟩ := entry
    simp only at hurl
    simp only [hurl]
    rw [if_neg hurlne, if_pos (by simp [hcap])]

/-- Witness for C9: one valid index against a capability-less manager gets
the attempt message and the capability-missing error, with no install. -/
theorem c9_witness :
    (updatePluginCommand ⟨false, fun _ => InstallOutcome.success⟩
      [(⟨"P1", "1.0.0", some "https://github.com/a/b"⟩, "1.1.0")] "1").installs = [] ∧
    (processIndex ⟨false, fun _ => InstallOutcome.success⟩
      [(⟨"P1", "1.0.0", some "https://github.com/a/b"⟩, "1.1.0")] 1).1 =
      [ItemMsg.attempting "P1" "1.1.0", ItemMsg.capabilityMissing] := by
  have h := c9_capability_missing_inline ⟨false, fun _ => InstallOutcome.success⟩
    [(⟨"P1", "1.0.0", some "https://github.com/a/b"⟩, "1.1.0")] "1" [1]
    rfl (by simp) rfl
  refine ⟨h.1, ?_⟩
  have h3 := h.2.2 1 (by simp) (by norm_num) "https://github.com/a/b" rfl (by decide)
  exact h3

end HotUpdate
